import Mathlib

/-!
Verification of the face-attendance recognition pipeline (src/app.py):
liveness analysis, gallery matching, punch-state decision, registration.

Shallow embedding conventions:
* numeric scores and distances are rationals;
* the two image statistics consumed by the liveness check (the variance of
  the Laplacian of the grayscale frame, and the standard deviation across
  the three per-channel standard deviations) are produced by external
  library calls, so they enter the model as oracle inputs; the arithmetic
  the repository performs on them is embedded exactly;
* the external verification primitive DeepFace.verify enters as an oracle
  from reference-image paths to an optional (distance, verified) pair,
  where none models a raised exception;
* the SQLite store is a record of the users table, the attendance table
  (most-recent-first) and the set of face-image files on disk.
-/

namespace FaceAttendance

/-- Mean of a list of rationals, with the numpy convention that statistics
of empty data and division by zero both yield 0. -/
def mean (l : List ℚ) : ℚ := l.sum / l.length

/-- Population variance of a list of rationals: the mean squared deviation
from the mean, the quantity whose square root numpy's std returns. -/
def variance (l : List ℚ) : ℚ :=
  (l.map (fun x => (x - mean l) ^ 2)).sum / l.length

/-- SPOOFING_THRESHOLD (app.py line 16). -/
def SPOOFING_THRESHOLD : ℚ := 1 / 100

/-- detect_liveness (app.py lines 131-145).  Input laplacian_var is the
variance of the Laplacian of the grayscale frame; color_std is the
standard deviation across the three per-channel standard deviations.
Output: (is_live, liveness_score). -/
def detect_liveness (laplacian_var color_std : ℚ) : Bool × ℚ :=
  let sharpness_score := min (laplacian_var / 1000) 1
  let liveness_score := (sharpness_score + min (color_std / 100) 1) / 2
  (decide (liveness_score > SPOOFING_THRESHOLD), liveness_score)

/-- A row of the users table (app.py lines 30-37). -/
structure User where
  user_id : ℕ
  name : String
  face_encoding_path : String
deriving DecidableEq, Repr

/-- A row of the attendance table (app.py lines 39-48).  The day field is
the calendar day of the row's timestamp; the table is kept
most-recent-first, so consing a row models inserting it with the newest
timestamp. -/
structure AttRecord where
  user_id : ℕ
  punch_type : String
  confidence_score : ℚ
  day : ℕ
deriving DecidableEq, Repr

/-- The persistent store: the two tables plus the face-image files
directory (list of paths written by cv2.imwrite, newest first). -/
structure DBState where
  users : List User
  attendance : List AttRecord
  files : List String
deriving DecidableEq, Repr

/-- get_all_users (app.py lines 99-105): the (user_id, name) pairs. -/
def get_all_users (st : DBState) : List (ℕ × String) :=
  st.users.map (fun u => (u.user_id, u.name))

/-- get_user_by_name (app.py lines 68-74): the first users row carrying
the name, if any. -/
def get_user_by_name (st : DBState) (name : String) : Option User :=
  st.users.find? (fun u => u.name == name)

/-- get_today_attendance (app.py lines 86-97): punch types of the given
user's records for the given day, most recent first. -/
def get_today_attendance (st : DBState) (uid day : ℕ) : List String :=
  (st.attendance.filter (fun r => r.user_id == uid && r.day == day)).map
    (fun r => r.punch_type)

/-- record_attendance (app.py lines 76-84): insert one attendance row,
timestamped now, hence first in most-recent-first order. -/
def record_attendance (st : DBState) (uid : ℕ) (punch : String) (conf : ℚ)
    (day : ℕ) : DBState :=
  { st with attendance := ⟨uid, punch, conf, day⟩ :: st.attendance }

/-- register_user (app.py lines 53-66): INSERT into users; the UNIQUE
constraint on name makes the insert raise IntegrityError, returned as
None, exactly when a row with the name already exists; otherwise the
store assigns a fresh row id. -/
def register_user (st : DBState) (name face_path : String) :
    Option ℕ × DBState :=
  if st.users.any (fun u => u.name == name) then (none, st)
  else
    let uid := st.users.length + 1
    (some uid, { st with users := st.users ++ [⟨uid, name, face_path⟩] })

/-- The punch-type decision inlined in recognize_face (app.py lines
236-241): empty today-list gives PUNCH-IN; otherwise the branch tests
only whether the most recent record's punch type equals PUNCH-IN. -/
def decide_punch (today_records : List String) : String :=
  match today_records with
  | [] => "PUNCH-IN"
  | t :: _ => if t = "PUNCH-IN" then "PUNCH-OUT" else "PUNCH-IN"

/-- One step of best-match tracking (app.py lines 216-220): the candidate
replaces the best so far iff its distance is strictly smaller and it is
verified; best = none encodes best_distance = infinity, so there the
condition reduces to the verified flag. -/
def updateBest (best : Option ((ℕ × String) × ℚ)) (cand : ℕ × String)
    (distance : ℚ) (verified : Bool) : Option ((ℕ × String) × ℚ) :=
  match best with
  | none => if verified then some (cand, distance) else none
  | some (b, bd) =>
      if distance < bd && verified then some (cand, distance) else some (b, bd)

/-- The gallery scan of recognize_face (app.py lines 199-223).  Each
candidate's reference path is re-fetched with get_user_by_name; a missing
row would make the subscript user_data[2] raise outside the inner
try/except and abort the whole request, modelled as .error.  A verify
exception (verify returning none) only skips the candidate. -/
def scanUsers (verify : String → Option (ℚ × Bool)) (st : DBState) :
    List (ℕ × String) → Option ((ℕ × String) × ℚ) →
    Except Unit (Option ((ℕ × String) × ℚ))
  | [], best => .ok best
  | (uid, name) :: rest, best =>
    match get_user_by_name st name with
    | none => .error ()
    | some u =>
      match verify u.face_encoding_path with
      | none => scanUsers verify st rest best
      | some (d, ver) => scanUsers verify st rest (updateBest best (uid, name) d ver)

/-- Outcome of recognize_face, one constructor per return site
(app.py lines 181-258). -/
inductive RecogResult where
  | spoofDetected (liveness_score : ℚ)
  | noUsers
  | notRecognized
  | success (name : String) (punch_type : String)
      (confidence liveness_score : ℚ)
  | recognitionError
deriving DecidableEq, Repr

/-- recognize_face (app.py lines 181-258).  The frame enters through its
two liveness statistics and through the verify oracle; day is the current
calendar day.  Returns the response together with the updated store. -/
def recognize_face (laplacian_var color_std : ℚ)
    (verify : String → Option (ℚ × Bool)) (day : ℕ) (st : DBState) :
    RecogResult × DBState :=
  let live := detect_liveness laplacian_var color_std
  if !live.1 then (.spoofDetected live.2, st)
  else
    let users := get_all_users st
    if users.isEmpty then (.noUsers, st)
    else
      match scanUsers verify st users none with
      | .error _ => (.recognitionError, st)
      | .ok none => (.notRecognized, st)
      | .ok (some ((uid, name), best_distance)) =>
        let confidence := 1 - best_distance
        let today_records := get_today_attendance st uid day
        let punch_type := decide_punch today_records
        (.success name punch_type confidence live.2,
         record_attendance st uid punch_type confidence day)

/-- Outcome of register_face, one constructor per return site
(app.py lines 147-179). -/
inductive RegResult where
  | livenessFailed (liveness_score : ℚ)
  | nameTaken
  | registered (user_id : ℕ) (liveness_score : ℚ)
deriving DecidableEq, Repr

/-- register_face (app.py lines 147-179).  t is int(time.time()) at the
moment of the call; on passing liveness the face image is written to the
files directory first, and only then is the users insert attempted; the
file is not removed when the insert fails. -/
def register_face (laplacian_var color_std : ℚ) (t : ℕ) (name : String)
    (st : DBState) : RegResult × DBState :=
  let live := detect_liveness laplacian_var color_std
  if !live.1 then (.livenessFailed live.2, st)
  else
    let face_path := "database/faces/" ++ name ++ "_" ++ toString t ++ ".jpg"
    let st1 : DBState := { st with files := face_path :: st.files }
    match register_user st1 name face_path with
    | (none, st2) => (.nameTaken, st2)
    | (some uid, st2) => (.registered uid live.2, st2)

/-- The per-request external inputs of one authentication call. -/
structure AuthInput where
  laplacian_var : ℚ
  color_std : ℚ
  verify : String → Option (ℚ × Bool)
  day : ℕ

/-- Sequential execution of a list of authentication requests against the
store, each request seeing the store the previous one left. -/
def runAuth (inputs : List AuthInput) (st : DBState) : DBState :=
  inputs.foldl
    (fun s inp => (recognize_face inp.laplacian_var inp.color_std inp.verify inp.day s).2)
    st

/-- Expected punch type at chronological position i within one day:
PUNCH-IN at even positions, PUNCH-OUT at odd ones. -/
def expectedPunch (i : ℕ) : String :=
  if i % 2 = 0 then "PUNCH-IN" else "PUNCH-OUT"

/-- A most-recent-first list of punch types strictly alternates starting
with ENTRY: read chronologically it is PUNCH-IN, PUNCH-OUT, PUNCH-IN, ... -/
def Alternates (m : List String) : Prop :=
  m.reverse = (List.range m.length).map expectedPunch

/-- Per-candidate outcome of reference lookup followed by verification,
as the scan sees it: none when the lookup or the comparison yields no
reply, some (distance, verified) otherwise. -/
def candOutcome (verify : String → Option (ℚ × Bool)) (st : DBState)
    (c : ℕ × String) : Option (ℚ × Bool) :=
  match get_user_by_name st c.2 with
  | none => none
  | some u => verify u.face_encoding_path

lemma updateBest_false (best : Option ((ℕ × String) × ℚ)) (cand : ℕ × String)
    (d : ℚ) : updateBest best cand d false = best := by
  cases best with
  | none => rfl
  | some b =>
    obtain ⟨c, bd⟩ := b
    simp [updateBest]

lemma scanUsers_keeps_best (verify : String → Option (ℚ × Bool)) (st : DBState)
    (c : ℕ × String) (d : ℚ) (l : List (ℕ × String))
    (hlk : ∀ x ∈ l, (get_user_by_name st x.2).isSome)
    (hge : ∀ x ∈ l, ∀ d', candOutcome verify st x = some (d', true) → d ≤ d') :
    scanUsers verify st l (some (c, d)) = .ok (some (c, d)) := by
  induction l with
  | nil => rfl
  | cons x rest ih =>
    obtain ⟨uid, name⟩ := x
    obtain ⟨u, hu⟩ := Option.isSome_iff_exists.mp (hlk _ (List.mem_cons_self _ _))
    have hco : candOutcome verify st (uid, name) = verify u.face_encoding_path := by
      simp [candOutcome, hu]
    have ih' := ih (fun y hy => hlk y (List.mem_cons_of_mem _ hy))
      (fun y hy => hge y (List.mem_cons_of_mem _ hy))
    cases hv : verify u.face_encoding_path with
    | none =>
      simpa only [scanUsers, hu, hv] using ih'
    | some dv =>
      obtain ⟨d', v⟩ := dv
      cases v with
      | false =>
        simpa only [scanUsers, hu, hv, updateBest_false] using ih'
      | true =>
        have hd : ¬ d' < d := not_lt.mpr
          (hge _ (List.mem_cons_self _ _) d' (by rw [hco, hv]))
        have hstep : updateBest (some (c, d)) (uid, name) d' true = some (c, d) := by
          simp [updateBest, hd]
        simpa only [scanUsers, hu, hv, hstep] using ih'

lemma candOutcome_some (verify : String → Option (ℚ × Bool)) (st : DBState)
    (c : ℕ × String) (dv : ℚ × Bool)
    (h : candOutcome verify st c = some dv) :
    ∃ u, get_user_by_name st c.2 = some u ∧ verify u.face_encoding_path = some dv := by
  cases hu : get_user_by_name st c.2 with
  | none => rw [candOutcome, hu] at h; exact absurd h (by simp)
  | some u => exact ⟨u, rfl, by rwa [candOutcome, hu] at h⟩

lemma scanUsers_finds_min_aux (verify : String → Option (ℚ × Bool)) (st : DBState)
    (c : ℕ × String) (d : ℚ) (l₂ : List (ℕ × String))
    (hc : candOutcome verify st c = some (d, true))
    (hlk₂ : ∀ x ∈ l₂, (get_user_by_name st x.2).isSome)
    (hge₂ : ∀ x ∈ l₂, ∀ d', candOutcome verify st x = some (d', true) → d ≤ d') :
    ∀ (l₁ : List (ℕ × String)) (best : Option ((ℕ × String) × ℚ)),
      (∀ x ∈ l₁, (get_user_by_name st x.2).isSome) →
      (∀ x ∈ l₁, ∀ d', candOutcome verify st x = some (d', true) → d < d') →
      (best = none ∨ ∃ b bd, best = some (b, bd) ∧ d < bd) →
      scanUsers verify st (l₁ ++ c :: l₂) best = .ok (some (c, d)) := by
  intro l₁
  induction l₁ with
  | nil =>
    intro best _ _ hbest
    obtain ⟨uc, hlu, hv⟩ := candOutcome_some verify st c (d, true) hc
    obtain ⟨uidc, namec⟩ := c
    have hstep : updateBest best (uidc, namec) d true = some ((uidc, namec), d) := by
      rcases hbest with rfl | ⟨b, bd, rfl, hlt⟩
      · simp [updateBest]
      · simp [updateBest, hlt]
    simp only [List.nil_append, scanUsers, hlu, hv, hstep]
    exact scanUsers_keeps_best verify st (uidc, namec) d l₂ hlk₂ hge₂
  | cons x rest ih =>
    intro best hlk₁ hgt₁ hbest
    obtain ⟨uid, name⟩ := x
    obtain ⟨u, hu⟩ := Option.isSome_iff_exists.mp (hlk₁ _ (List.mem_cons_self _ _))
    have hco : candOutcome verify st (uid, name) = verify u.face_encoding_path := by
      simp [candOutcome, hu]
    have hlk₁' := fun y hy => hlk₁ y (List.mem_cons_of_mem _ hy)
    have hgt₁' := fun y hy => hgt₁ y (List.mem_cons_of_mem _ hy)
    cases hv : verify u.face_encoding_path with
    | none =>
      simp only [List.cons_append, scanUsers, hu, hv]
      exact ih best hlk₁' hgt₁' hbest
    | some dv =>
      obtain ⟨d', v⟩ := dv
      cases v with
      | false =>
        simp only [List.cons_append, scanUsers, hu, hv, updateBest_false]
        exact ih best hlk₁' hgt₁' hbest
      | true =>
        have hlt : d < d' := hgt₁ _ (List.mem_cons_self _ _) d' (by rw [hco, hv])
        simp only [List.cons_append, scanUsers, hu, hv]
        apply ih _ hlk₁' hgt₁'
        right
        rcases hbest with rfl | ⟨b, bd, rfl, hbd⟩
        · exact ⟨(uid, name), d', by simp [updateBest], hlt⟩
        · by_cases hcmp : d' < bd
          · exact ⟨(uid, name), d', by simp [updateBest, hcmp], hlt⟩
          · exact ⟨b, bd, by simp [updateBest, hcmp], hbd⟩

lemma scanUsers_mem (verify : String → Option (ℚ × Bool)) (st : DBState) :
    ∀ (l : List (ℕ × String)) (best : Option ((ℕ × String) × ℚ))
      (x : ℕ × String) (d : ℚ),
      scanUsers verify st l best = .ok (some (x, d)) →
      best = some (x, d) ∨ (x ∈ l ∧ candOutcome verify st x = some (d, true)) := by
  intro l
  induction l with
  | nil =>
    intro best x d h
    simp only [scanUsers, Except.ok.injEq] at h
    exact Or.inl h
  | cons y rest ih =>
    intro best x d h
    obtain ⟨uid, name⟩ := y
    cases hu : get_user_by_name st name with
    | none =>
      simp only [scanUsers, hu] at h
      exact absurd h (by simp)
    | some u =>
      have hco : candOutcome verify st (uid, name) = verify u.face_encoding_path := by
        simp [candOutcome, hu]
      cases hv : verify u.face_encoding_path with
      | none =>
        simp only [scanUsers, hu, hv] at h
        rcases ih best x d h with h' | ⟨hmem, hout⟩
        · exact Or.inl h'
        · exact Or.inr ⟨List.mem_cons_of_mem _ hmem, hout⟩
      | some dv =>
        obtain ⟨d', v⟩ := dv
        simp only [scanUsers, hu, hv] at h
        rcases ih _ x d h with h' | ⟨hmem, hout⟩
        · cases v with
          | false =>
            rw [updateBest_false] at h'
            exact Or.inl h'
          | true =>
            cases best with
            | none =>
              have h'' : ((uid, name), d') = (x, d) := by
                simpa [updateBest] using h'
              obtain ⟨h1, h2⟩ := Prod.mk.injEq .. ▸ h''
              refine Or.inr ⟨?_, ?_⟩
              · rw [← h1]; exact List.mem_cons_self _ _
              · rw [← h1, hco, hv, h2]
            | some b =>
              obtain ⟨bc, bd⟩ := b
              by_cases hcmp : d' < bd
              · have h'' : ((uid, name), d') = (x, d) := by
                  simpa [updateBest, hcmp] using h'
                obtain ⟨h1, h2⟩ := Prod.mk.injEq .. ▸ h''
                refine Or.inr ⟨?_, ?_⟩
                · rw [← h1]; exact List.mem_cons_self _ _
                · rw [← h1, hco, hv, h2]
              · exact Or.inl (by simpa [updateBest, hcmp] using h')
        · exact Or.inr ⟨List.mem_cons_of_mem _ hmem, hout⟩

/-- C6: a candidate whose comparison raises an error (verify returning
none) is skipped and does not abort the scan: scanning any gallery gives
exactly the same result as scanning the gallery with the failing
candidates removed, so every remaining candidate is still considered. -/
theorem scan_skips_failing_candidates (verify : String → Option (ℚ × Bool))
    (st : DBState) (l : List (ℕ × String)) (best : Option ((ℕ × String) × ℚ))
    (hlk : ∀ x ∈ l, (get_user_by_name st x.2).isSome) :
    scanUsers verify st l best
      = scanUsers verify st
          (l.filter fun x => (candOutcome verify st x).isSome) best := by
  induction l generalizing best with
  | nil => rfl
  | cons x rest ih =>
    obtain ⟨uid, name⟩ := x
    obtain ⟨u, hu⟩ := Option.isSome_iff_exists.mp (hlk _ (List.mem_cons_self _ _))
    have hco : candOutcome verify st (uid, name) = verify u.face_encoding_path := by
      simp [candOutcome, hu]
    have hlk' := fun y hy => hlk y (List.mem_cons_of_mem _ hy)
    cases hv : verify u.face_encoding_path with
    | none =>
      have hfilter :
          ((uid, name) :: rest).filter (fun x => (candOutcome verify st x).isSome)
            = rest.filter (fun x => (candOutcome verify st x).isSome) := by
        simp [List.filter_cons, hco, hv]
      rw [hfilter, ← ih best hlk']
      simp only [scanUsers, hu, hv]
    | some dv =>
      obtain ⟨d', v⟩ := dv
      have hfilter :
          ((uid, name) :: rest).filter (fun x => (candOutcome verify st x).isSome)
            = (uid, name) :: rest.filter (fun x => (candOutcome verify st x).isSome) := by
        simp [List.filter_cons, hco, hv]
      rw [hfilter]
      simp only [scanUsers, hu, hv]
      exact ih _ hlk'

/-- Witness for C6: a two-user gallery whose first comparison raises;
the scan result coincides with the scan over the filtered gallery. -/
theorem scan_skips_failing_candidates_witness :
    scanUsers (fun p => if p = "pa" then none else some (1/4, true))
      ⟨[⟨1, "a", "pa"⟩, ⟨2, "b", "pb"⟩], [], []⟩ [(1, "a"), (2, "b")] none
      = scanUsers (fun p => if p = "pa" then none else some (1/4, true))
          ⟨[⟨1, "a", "pa"⟩, ⟨2, "b", "pb"⟩], [], []⟩
          ([(1, "a"), (2, "b")].filter fun x =>
            (candOutcome (fun p => if p = "pa" then none else some (1/4, true))
              ⟨[⟨1, "a", "pa"⟩, ⟨2, "b", "pb"⟩], [], []⟩ x).isSome) none :=
  scan_skips_failing_candidates _ _ _ none (by decide)

/-- C4: the scan selects the verified candidate with the smallest
distance, ties resolved in favor of the earliest gallery position:
whenever candidate c is verified at distance d, every verified candidate
placed before it sits at a strictly larger distance, and every verified
candidate placed after it sits at distance at least d, the scan returns
c with distance d; for two verified candidates at distances d1 < d2 this
selects the d1 candidate on whichever side of the gallery it sits. -/
theorem scan_selects_min (verify : String → Option (ℚ × Bool)) (st : DBState)
    (l₁ l₂ : List (ℕ × String)) (c : ℕ × String) (d : ℚ)
    (hlk₁ : ∀ x ∈ l₁, (get_user_by_name st x.2).isSome)
    (hlk₂ : ∀ x ∈ l₂, (get_user_by_name st x.2).isSome)
    (hc : candOutcome verify st c = some (d, true))
    (hgt : ∀ x ∈ l₁, ∀ d', candOutcome verify st x = some (d', true) → d < d')
    (hge : ∀ x ∈ l₂, ∀ d', candOutcome verify st x = some (d', true) → d ≤ d') :
    scanUsers verify st (l₁ ++ c :: l₂) none = .ok (some (c, d)) :=
  scanUsers_finds_min_aux verify st c d l₂ hc hlk₂ hge l₁ none hlk₁ hgt (Or.inl rfl)

/-- Witness for C4: two verified candidates at distances 1/2 and 1/4;
the scan picks the 1/4 candidate although it is seen second. -/
theorem scan_selects_min_witness :
    scanUsers (fun p => if p = "pa" then some (1/2, true) else some (1/4, true))
      ⟨[⟨1, "a", "pa"⟩, ⟨2, "b", "pb"⟩], [], []⟩ [(1, "a"), (2, "b")] none
      = .ok (some ((2, "b"), 1/4)) :=
  scan_selects_min _ _ [(1, "a")] [] (2, "b") (1/4)
    (by decide)
    (by intro x hx; exact absurd hx (List.not_mem_nil x))
    rfl
    (by
      intro x hx d' h
      rw [List.mem_singleton] at hx
      subst hx
      norm_num [candOutcome, get_user_by_name, List.find?] at h
      rw [← h]
      norm_num)
    (by intro x hx; exact absurd hx (List.not_mem_nil x))

lemma recognize_face_spec (lap col : ℚ) (verify : String → Option (ℚ × Bool))
    (day : ℕ) (st : DBState) :
    (∃ uid name bd,
        scanUsers verify st (get_all_users st) none = .ok (some ((uid, name), bd))
        ∧ (detect_liveness lap col).1 = true
        ∧ recognize_face lap col verify day st
            = (.success name (decide_punch (get_today_attendance st uid day))
                 (1 - bd) (detect_liveness lap col).2,
               record_attendance st uid
                 (decide_punch (get_today_attendance st uid day)) (1 - bd) day))
    ∨ ((∀ n p c s, (recognize_face lap col verify day st).1 ≠ .success n p c s)
        ∧ (recognize_face lap col verify day st).2 = st) := by
  cases hlive : (detect_liveness lap col).1 with
  | false =>
    have hr : recognize_face lap col verify day st
        = (.spoofDetected (detect_liveness lap col).2, st) := by
      simp only [recognize_face, hlive, Bool.not_false, if_pos]
    exact Or.inr ⟨fun n p c s => by rw [hr]; simp, by rw [hr]⟩
  | true =>
    cases hemp : (get_all_users st).isEmpty with
    | true =>
      have hr : recognize_face lap col verify day st = (.noUsers, st) := by
        simp only [recognize_face, hlive, Bool.not_true, Bool.false_eq_true,
          if_false, hemp, if_pos]
      exact Or.inr ⟨fun n p c s => by rw [hr]; simp, by rw [hr]⟩
    | false =>
      cases hscan : scanUsers verify st (get_all_users st) none with
      | error e =>
        have hr : recognize_face lap col verify day st = (.recognitionError, st) := by
          simp only [recognize_face, hlive, Bool.not_true, Bool.false_eq_true,
            if_false, hemp, hscan]
        exact Or.inr ⟨fun n p c s => by rw [hr]; simp, by rw [hr]⟩
      | ok best =>
        cases best with
        | none =>
          have hr : recognize_face lap col verify day st = (.notRecognized, st) := by
            simp only [recognize_face, hlive, Bool.not_true, Bool.false_eq_true,
              if_false, hemp, hscan]
          exact Or.inr ⟨fun n p c s => by rw [hr]; simp, by rw [hr]⟩
        | some b =>
          obtain ⟨⟨uid, name⟩, bd⟩ := b
          refine Or.inl ⟨uid, name, bd, rfl, rfl, ?_⟩
          simp only [recognize_face, hlive, Bool.not_true, Bool.false_eq_true,
            if_false, hemp, hscan]

/-- Counterexample to C2: with a verified match at distance 3/2 (inside
the range of the cosine-distance scale) the reported and stored
confidence is 1 - 3/2 = -1/2, which lies outside [0,1]: the value is not
clamped anywhere in the code. -/
theorem confidence_not_clamped_counterexample :
    (recognize_face 2000 0 (fun _ => some (3/2, true)) 0
        ⟨[⟨1, "alice", "p"⟩], [], []⟩).1
      = .success "alice" "PUNCH-IN" (-(1/2)) (1/2)
    ∧ ¬(0 ≤ (-(1/2) : ℚ)) := by
  constructor
  · norm_num [recognize_face, detect_liveness, SPOOFING_THRESHOLD, get_all_users,
      scanUsers, get_user_by_name, updateBest, get_today_attendance, decide_punch,
      record_attendance]
  · norm_num

/-- C2 amended: the confidence reported and stored on success equals
1 - d for the best verified match distance d returned by the
verification primitive, with no clamping; since the primitive's
distances are nonnegative the confidence never exceeds 1, but it can be
negative when d exceeds 1. -/
theorem confidence_eq_one_sub_distance (lap col : ℚ)
    (verify : String → Option (ℚ × Bool)) (day : ℕ) (st : DBState)
    (n p : String) (c s : ℚ)
    (h : (recognize_face lap col verify day st).1 = .success n p c s)
    (hd : ∀ path d v, verify path = some (d, v) → 0 ≤ d) :
    (∃ d, 0 ≤ d ∧ (∃ path, verify path = some (d, true)) ∧ c = 1 - d)
    ∧ c ≤ 1 := by
  rcases recognize_face_spec lap col verify day st with
    ⟨uid, name, bd, hscan, _, hr⟩ | ⟨hne, _⟩
  · rw [hr] at h
    simp only [RecogResult.success.injEq] at h
    obtain ⟨-, -, hc, -⟩ := h
    rcases scanUsers_mem verify st (get_all_users st) none (uid, name) bd hscan with
      hnone | ⟨-, hout⟩
    · exact absurd hnone (by simp)
    · obtain ⟨u, -, hv⟩ := candOutcome_some verify st (uid, name) (bd, true) hout
      have hbd : 0 ≤ bd := hd _ _ _ hv
      refine ⟨⟨bd, hbd, ⟨u.face_encoding_path, hv⟩, hc.symm⟩, ?_⟩
      rw [← hc]
      linarith
  · exact absurd h (hne n p c s)

/-- Witness for the amended C2: a verified match at distance 1/2 yields
confidence 1/2 = 1 - 1/2, which is at most 1. -/
theorem confidence_eq_one_sub_distance_witness :
    (∃ d, (0:ℚ) ≤ d
      ∧ (∃ path, (fun (_ : String) => some ((1:ℚ)/2, true)) path = some (d, true))
      ∧ (1:ℚ)/2 = 1 - d)
    ∧ ((1:ℚ)/2 ≤ 1) :=
  confidence_eq_one_sub_distance 2000 0 (fun _ => some ((1:ℚ)/2, true)) 0
    ⟨[⟨1, "alice", "p"⟩], [], []⟩ "alice" "PUNCH-IN" (1/2) (1/2)
    (by norm_num [recognize_face, detect_liveness, SPOOFING_THRESHOLD,
      get_all_users, scanUsers, get_user_by_name, updateBest,
      get_today_attendance, decide_punch, record_attendance])
    (by
      intro path d v hv
      simp only [Option.some.injEq, Prod.mk.injEq] at hv
      rw [← hv.1]
      norm_num)

/-- C5: authentication never touches the users table or the face files,
writes exactly one new attendance row on a successful match, and leaves
the store untouched on every rejection path (liveness rejection, empty
gallery, no verified candidate, or an aborted scan). -/
theorem recognize_frame_effect (lap col : ℚ)
    (verify : String → Option (ℚ × Bool)) (day : ℕ) (st : DBState) :
    (recognize_face lap col verify day st).2.users = st.users
    ∧ (recognize_face lap col verify day st).2.files = st.files
    ∧ (match (recognize_face lap col verify day st).1 with
       | .success _ p c _ =>
           ∃ uid, (recognize_face lap col verify day st).2
             = record_attendance st uid p c day
       | _ => (recognize_face lap col verify day st).2 = st) := by
  rcases recognize_face_spec lap col verify day st with
    ⟨uid, name, bd, -, -, hr⟩ | ⟨hne, hst⟩
  · rw [hr]
    exact ⟨rfl, rfl, ⟨uid, rfl⟩⟩
  · refine ⟨by rw [hst], by rw [hst], ?_⟩
    cases hr1 : (recognize_face lap col verify day st).1 with
    | success n p c s => exact absurd hr1 (hne n p c s)
    | spoofDetected s => exact hst
    | noUsers => exact hst
    | notRecognized => exact hst
    | recognitionError => exact hst

/-- Witness for C5: one successful authentication against a one-user
store leaves the users table unchanged. -/
theorem recognize_frame_effect_witness :
    (recognize_face 2000 0 (fun _ => some ((1:ℚ)/2, true)) 0
        ⟨[⟨1, "alice", "p"⟩], [], []⟩).2.users = [⟨1, "alice", "p"⟩] :=
  (recognize_frame_effect 2000 0 (fun _ => some ((1:ℚ)/2, true)) 0
    ⟨[⟨1, "alice", "p"⟩], [], []⟩).1

lemma get_today_attendance_record (st : DBState) (uid : ℕ) (p : String)
    (c : ℚ) (day u0 d0 : ℕ) :
    get_today_attendance (record_attendance st uid p c day) u0 d0
      = if uid = u0 ∧ day = d0 then p :: get_today_attendance st u0 d0
        else get_today_attendance st u0 d0 := by
  by_cases h : uid = u0 ∧ day = d0
  · obtain ⟨rfl, rfl⟩ := h
    simp [get_today_attendance, record_attendance, List.filter_cons]
  · rw [if_neg h]
    have hb : (uid == u0 && day == d0) = false := by
      rw [not_and_or] at h
      rcases h with h | h <;> simp [h]
    simp [get_today_attendance, record_attendance, List.filter_cons, hb]

lemma recognize_today_effect (lap col : ℚ) (verify : String → Option (ℚ × Bool))
    (rday : ℕ) (st : DBState) (uid day : ℕ) :
    get_today_attendance (recognize_face lap col verify rday st).2 uid day
        = get_today_attendance st uid day
    ∨ get_today_attendance (recognize_face lap col verify rday st).2 uid day
        = decide_punch (get_today_attendance st uid day)
            :: get_today_attendance st uid day := by
  rcases recognize_face_spec lap col verify rday st with
    ⟨u, nm, bd, -, -, hr⟩ | ⟨-, hst⟩
  · rw [hr]
    simp only [get_today_attendance_record]
    by_cases h : u = uid ∧ rday = day
    · rw [if_pos h, h.1, h.2]
      exact Or.inr rfl
    · rw [if_neg h]
      exact Or.inl rfl
  · rw [hst]
    exact Or.inl rfl

lemma alternates_step (m : List String) (h : Alternates m) :
    Alternates (decide_punch m :: m) := by
  have hdp : decide_punch m = expectedPunch m.length := by
    cases m with
    | nil => rfl
    | cons t rest =>
      have hlast := congrArg List.getLast? h
      rw [List.reverse_cons, List.getLast?_concat] at hlast
      have hrange : (List.range (t :: rest).length).map expectedPunch
          = (List.range rest.length).map expectedPunch
            ++ [expectedPunch rest.length] := by
        rw [List.length_cons, List.range_succ, List.map_append]
        rfl
      rw [hrange, List.getLast?_concat] at hlast
      have ht : t = expectedPunch rest.length := Option.some.inj hlast
      by_cases hpar : rest.length % 2 = 0
      · have h1 : expectedPunch rest.length = "PUNCH-IN" := by
          simp [expectedPunch, hpar]
        have h2 : (rest.length + 1) % 2 = 1 := by omega
        simp [decide_punch, ht, h1, expectedPunch, h2, hpar]
      · have h1 : expectedPunch rest.length = "PUNCH-OUT" := by
          simp [expectedPunch, hpar]
        have h2 : (rest.length + 1) % 2 = 0 := by omega
        have h3 : rest.length % 2 = 1 := by omega
        have hne : ("PUNCH-OUT" : String) ≠ "PUNCH-IN" := by decide
        simp [decide_punch, ht, h1, expectedPunch, h2, h3, hne]
  rw [Alternates, List.reverse_cons, h, hdp, List.length_cons, List.range_succ,
    List.map_append]
  rfl

/-- C1: under sequential execution of authentication requests, for any
identity and any calendar day the recorded punch types for that identity
and day, read in chronological order, strictly alternate starting with
PUNCH-IN; the decision emits PUNCH-IN on an empty day, PUNCH-OUT when
the most recent punch of the day is PUNCH-IN, and PUNCH-IN when it is
PUNCH-OUT. -/
theorem punch_alternation (uid day : ℕ) (inputs : List AuthInput) (st : DBState)
    (h : Alternates (get_today_attendance st uid day)) :
    Alternates (get_today_attendance (runAuth inputs st) uid day)
    ∧ decide_punch [] = "PUNCH-IN"
    ∧ (∀ rest, decide_punch ("PUNCH-IN" :: rest) = "PUNCH-OUT")
    ∧ (∀ rest, decide_punch ("PUNCH-OUT" :: rest) = "PUNCH-IN") := by
  refine ⟨?_, rfl, fun rest => by simp [decide_punch],
    fun rest => by simp [decide_punch]⟩
  induction inputs generalizing st with
  | nil => exact h
  | cons inp rest ih =>
    have hstep := recognize_today_effect inp.laplacian_var inp.color_std
      inp.verify inp.day st uid day
    have hrun : runAuth (inp :: rest) st
        = runAuth rest
            (recognize_face inp.laplacian_var inp.color_std inp.verify inp.day st).2 :=
      rfl
    rw [hrun]
    rcases hstep with heq | heq
    · exact ih _ (by rw [heq]; exact h)
    · exact ih _ (by rw [heq]; exact alternates_step _ h)

/-- Witness for C1: two successful authentications on an empty day
produce an alternating day record. -/
theorem punch_alternation_witness :
    Alternates (get_today_attendance
      (runAuth
        [⟨2000, 0, fun _ => some ((1:ℚ)/2, true), 0⟩,
         ⟨2000, 0, fun _ => some ((1:ℚ)/2, true), 0⟩]
        ⟨[⟨1, "alice", "p"⟩], [], []⟩) 1 0) :=
  (punch_alternation 1 0
    [⟨2000, 0, fun _ => some ((1:ℚ)/2, true), 0⟩,
     ⟨2000, 0, fun _ => some ((1:ℚ)/2, true), 0⟩]
    ⟨[⟨1, "alice", "p"⟩], [], []⟩ rfl).1

/-- C10: the punch-type decision inspects only the first (most recent)
record of today's list and branches only on equality with "PUNCH-IN":
any other most-recent value, including malformed or unknown punch-type
strings, makes the next emitted punch "PUNCH-IN". -/
theorem punch_decision_head_only (t : String) (rest rest2 : List String) :
    decide_punch (t :: rest) = decide_punch (t :: rest2)
    ∧ (t ≠ "PUNCH-IN" → decide_punch (t :: rest) = "PUNCH-IN") := by
  refine ⟨rfl, fun h => ?_⟩
  simp [decide_punch, h]

/-- Witness for C10: a malformed most-recent punch type yields PUNCH-IN,
whatever follows it in the list. -/
theorem punch_decision_head_only_witness :
    decide_punch ["BOGUS", "PUNCH-OUT"] = "PUNCH-IN" :=
  (punch_decision_head_only "BOGUS" ["PUNCH-OUT"] []).2 (by decide)

/-- C8: for nonnegative image statistics (a variance and a standard
deviation are always nonnegative) each of the two component signals is
clamped into [0,1], so their unweighted average, the returned liveness
score, lies in [0,1]; the analysis is a pure function of the two
statistics, hence deterministic. -/
theorem liveness_score_bounds (lv cs : ℚ) (h1 : 0 ≤ lv) (h2 : 0 ≤ cs) :
    0 ≤ (detect_liveness lv cs).2 ∧ (detect_liveness lv cs).2 ≤ 1 := by
  have ha : (0:ℚ) ≤ min (lv / 1000) 1 := le_min (by positivity) zero_le_one
  have hb : min (lv / 1000) 1 ≤ 1 := min_le_right _ _
  have hc : (0:ℚ) ≤ min (cs / 100) 1 := le_min (by positivity) zero_le_one
  have hd : min (cs / 100) 1 ≤ 1 := min_le_right _ _
  constructor
  · simp only [detect_liveness]
    linarith
  · simp only [detect_liveness]
    linarith

/-- Witness for C8: at statistics (500, 50) the score is within [0,1]. -/
theorem liveness_score_bounds_witness :
    0 ≤ (detect_liveness 500 50).2 ∧ (detect_liveness 500 50).2 ≤ 1 :=
  liveness_score_bounds 500 50 (by norm_num) (by norm_num)

/-- C9: a perfectly uniform image is always rejected: constant data has
zero variance (so the Laplacian variance of a constant frame and each
per-channel standard deviation, and hence the dispersion across them,
are all zero), and at statistics (0, 0) the analysis returns score
exactly 0 with is_live = false, because acceptance requires the score to
exceed the threshold 1/100 strictly. -/
theorem liveness_constant_image :
    (∀ (n : ℕ) (c : ℚ), variance (List.replicate n c) = 0)
    ∧ detect_liveness 0 0 = (false, 0)
    ∧ SPOOFING_THRESHOLD = 1 / 100 := by
  refine ⟨?_, ?_, rfl⟩
  · intro n c
    cases n with
    | zero => simp [variance, mean]
    | succ k =>
      have hmean : mean (List.replicate (k + 1) c) = c := by
        rw [mean, List.sum_replicate, List.length_replicate, nsmul_eq_mul,
          mul_div_cancel_left₀]
        exact Nat.cast_ne_zero.mpr (Nat.succ_ne_zero k)
      simp [variance, hmean, List.map_replicate, List.sum_replicate]
  · simp [detect_liveness, SPOOFING_THRESHOLD]

lemma register_face_livefail_eq (lap col : ℚ) (t : ℕ) (name : String)
    (st : DBState) (hlive : (detect_liveness lap col).1 = false) :
    register_face lap col t name st
      = (.livenessFailed (detect_liveness lap col).2, st) := by
  simp only [register_face, hlive, Bool.not_false, if_pos]

lemma register_face_taken_eq (lap col : ℚ) (t : ℕ) (name : String)
    (st : DBState) (hlive : (detect_liveness lap col).1 = true)
    (htaken : st.users.any (fun u => u.name == name) = true) :
    register_face lap col t name st
      = (.nameTaken,
         { st with files :=
             ("database/faces/" ++ name ++ "_" ++ toString t ++ ".jpg") :: st.files }) := by
  simp only [register_face, hlive, Bool.not_true, Bool.false_eq_true, if_false,
    register_user, htaken, if_pos]

lemma register_face_fresh_eq (lap col : ℚ) (t : ℕ) (name : String)
    (st : DBState) (hlive : (detect_liveness lap col).1 = true)
    (hfresh : st.users.any (fun u => u.name == name) = false) :
    register_face lap col t name st
      = (.registered (st.users.length + 1) (detect_liveness lap col).2,
         { users := st.users ++ [⟨st.users.length + 1, name,
             "database/faces/" ++ name ++ "_" ++ toString t ++ ".jpg"⟩],
           attendance := st.attendance,
           files := ("database/faces/" ++ name ++ "_" ++ toString t ++ ".jpg")
             :: st.files }) := by
  simp only [register_face, hlive, Bool.not_true, Bool.false_eq_true, if_false,
    register_user, hfresh, Bool.false_eq_true, if_false]

lemma register_face_name_present (lap col : ℚ) (t : ℕ) (name : String)
    (st : DBState) (hlive : (detect_liveness lap col).1 = true) :
    (register_face lap col t name st).2.users.any (fun u => u.name == name)
      = true := by
  cases htaken : st.users.any (fun u => u.name == name) with
  | true => rw [register_face_taken_eq lap col t name st hlive htaken]; exact htaken
  | false =>
    rw [register_face_fresh_eq lap col t name st hlive htaken]
    simp [List.any_append]

lemma register_face_count_le_one (lap col : ℚ) (t : ℕ) (name : String)
    (st : DBState)
    (h : st.users.countP (fun u => u.name == name) ≤ 1) :
    (register_face lap col t name st).2.users.countP (fun u => u.name == name)
      ≤ 1 := by
  cases hlive : (detect_liveness lap col).1 with
  | false => rw [register_face_livefail_eq lap col t name st hlive]; exact h
  | true =>
    cases htaken : st.users.any (fun u => u.name == name) with
    | true => rw [register_face_taken_eq lap col t name st hlive htaken]; exact h
    | false =>
      rw [register_face_fresh_eq lap col t name st hlive htaken]
      have hzero : st.users.countP (fun u => u.name == name) = 0 := by
        rw [List.countP_eq_zero]
        intro u hu
        have := List.any_eq_false.mp htaken u hu
        simpa using this
      simp [List.countP_append, hzero, List.countP_cons]

/-- Counterexample to C3: with the name alice already registered (its
reference at database/faces/alice_100.jpg), a live registration call for
alice at time 200 returns NameTaken and adds no identity, yet the
freshly written reference image database/faces/alice_200.jpg stays
persisted with no identity row pointing at it: the code writes the image
before the uniqueness check and never removes it, leaving a dangling
partial write. -/
theorem registration_dangling_file_counterexample :
    (register_face 2000 0 200 "alice"
        ⟨[⟨1, "alice", "database/faces/alice_100.jpg"⟩], [],
          ["database/faces/alice_100.jpg"]⟩).1 = .nameTaken
    ∧ "database/faces/alice_200.jpg"
        ∈ (register_face 2000 0 200 "alice"
            ⟨[⟨1, "alice", "database/faces/alice_100.jpg"⟩], [],
              ["database/faces/alice_100.jpg"]⟩).2.files
    ∧ ∀ u ∈ (register_face 2000 0 200 "alice"
            ⟨[⟨1, "alice", "database/faces/alice_100.jpg"⟩], [],
              ["database/faces/alice_100.jpg"]⟩).2.users,
        u.face_encoding_path ≠ "database/faces/alice_200.jpg" := by
  have hlive : (detect_liveness 2000 0).1 = true := by
    norm_num [detect_liveness, SPOOFING_THRESHOLD]
  have hr := register_face_taken_eq 2000 0 200 "alice"
    ⟨[⟨1, "alice", "database/faces/alice_100.jpg"⟩], [],
      ["database/faces/alice_100.jpg"]⟩ hlive (by decide)
  rw [hr]
  refine ⟨rfl, ?_, ?_⟩
  · have hpath : "database/faces/" ++ "alice" ++ "_" ++ toString (200 : ℕ) ++ ".jpg"
        = "database/faces/alice_200.jpg" := rfl
    rw [hpath]
    exact List.mem_cons_self _ _
  · intro u hu
    have hu' : u = ⟨1, "alice", "database/faces/alice_100.jpg"⟩ := by
      simpa using hu
    rw [hu']
    decide

/-- C3 amended: a live registration call for an already-taken name
returns NameTaken, leaves the users and attendance tables unchanged (no
duplicate identity, no overwritten identity row), but the new reference
image has already been written before the uniqueness check and remains
persisted: the file store gains exactly the freshly written path. -/
theorem register_name_taken_effect (lap col : ℚ) (t : ℕ) (name : String)
    (st : DBState)
    (hlive : (detect_liveness lap col).1 = true)
    (htaken : st.users.any (fun u => u.name == name) = true) :
    (register_face lap col t name st).1 = .nameTaken
    ∧ (register_face lap col t name st).2.users = st.users
    ∧ (register_face lap col t name st).2.attendance = st.attendance
    ∧ (register_face lap col t name st).2.files
        = ("database/faces/" ++ name ++ "_" ++ toString t ++ ".jpg")
            :: st.files := by
  rw [register_face_taken_eq lap col t name st hlive htaken]
  exact ⟨rfl, rfl, rfl, rfl⟩

/-- Witness for the amended C3: registering alice a second time returns
NameTaken. -/
theorem register_name_taken_effect_witness :
    (register_face 2000 0 200 "alice" ⟨[⟨1, "alice", "pa"⟩], [], []⟩).1
      = .nameTaken :=
  (register_name_taken_effect 2000 0 200 "alice"
    ⟨[⟨1, "alice", "pa"⟩], [], []⟩
    (by norm_num [detect_liveness, SPOOFING_THRESHOLD]) (by decide)).1

/-- C7: two registration calls for the same name, both passing the
liveness check, starting from a store holding at most one identity with
that name: afterwards the store still holds at most one identity with
that name, and the second call returns NameTaken rather than creating
or replacing an identity. -/
theorem duplicate_registration (st : DBState) (name : String)
    (a₁ b₁ a₂ b₂ : ℚ) (t₁ t₂ : ℕ)
    (h₁ : (detect_liveness a₁ b₁).1 = true)
    (h₂ : (detect_liveness a₂ b₂).1 = true)
    (hcount : st.users.countP (fun u => u.name == name) ≤ 1) :
    (register_face a₂ b₂ t₂ name
        (register_face a₁ b₁ t₁ name st).2).2.users.countP
        (fun u => u.name == name) ≤ 1
    ∧ (register_face a₂ b₂ t₂ name
        (register_face a₁ b₁ t₁ name st).2).1 = .nameTaken := by
  have hc1 := register_face_count_le_one a₁ b₁ t₁ name st hcount
  have hpresent := register_face_name_present a₁ b₁ t₁ name st h₁
  refine ⟨register_face_count_le_one a₂ b₂ t₂ name _ hc1, ?_⟩
  rw [register_face_taken_eq a₂ b₂ t₂ name _ h₂ hpresent]

/-- Witness for C7: registering bob twice into an empty store leaves one
identity named bob and the second call reports NameTaken. -/
theorem duplicate_registration_witness :
    (register_face 2000 0 2 "bob"
        (register_face 2000 0 1 "bob" ⟨[], [], []⟩).2).2.users.countP
        (fun u => u.name == "bob") ≤ 1
    ∧ (register_face 2000 0 2 "bob"
        (register_face 2000 0 1 "bob" ⟨[], [], []⟩).2).1 = .nameTaken :=
  duplicate_registration ⟨[], [], []⟩ "bob" 2000 0 2000 0 1 2
    (by norm_num [detect_liveness, SPOOFING_THRESHOLD])
    (by norm_num [detect_liveness, SPOOFING_THRESHOLD])
    (by decide)

end FaceAttendance
